import Mathlib

/-!
Shallow embedding of the skypier-vecDB core (Rust) in Lean 4, together
with theorems settling the frozen claims about it.

Modelling conventions, used consistently below:
* `f32` values are modelled as exact rationals (`ℚ`); `f32::sqrt` is
  modelled by `sqrtQ`, which is exact on perfect squares (every concrete
  input used in this development has a perfect-square norm, so the model
  and the floating-point code agree there).
* `HashMap<String, V>` is modelled as an association list
  `List (String × V)` whose keys are unique on every reachable state;
  `alookup`, `assocInsert` and `eraseKey` model `get`, `insert` and
  `remove`.  Iteration order of the map is modelled by list order (the
  source relies on no particular order).
* `BinaryHeap<Connection>` with the reversed `Ord` of
  `Connection::cmp` (hnsw.rs lines 27-35) pops the element with the
  minimal `distance` field; `heapPop` models `pop`/`peek` and
  `heapPush` models `push`.  Ties are broken deterministically where the
  source breaks them arbitrarily.
* Fallible Rust functions returning `anyhow::Result` are modelled with
  `Except VdbError`; the only error constructed by the modelled code
  paths is the dimension-mismatch error.
* `async` and locking are erased: every modelled operation is the
  sequential body the source executes while holding the relevant lock.
-/

namespace Skypier

/-- The error kinds relevant to the modelled code paths. -/
inductive VdbError where
  | DimensionMismatch
deriving DecidableEq

/-- Model of `HashMap::get`: first value bound to the key. -/
def alookup {α : Type _} (k : String) : List (String × α) → Option α
  | [] => none
  | (k', v) :: rest => if k' = k then some v else alookup k rest

/-- Model of `HashMap::insert`: replace the binding in place if the key is
present, otherwise append a new binding. -/
def assocInsert {α : Type _} (k : String) (v : α) : List (String × α) → List (String × α)
  | [] => [(k, v)]
  | (k', v') :: rest =>
    if k' = k then (k, v) :: rest else (k', v') :: assocInsert k v rest

/-- Model of `HashMap::remove` (drops every binding of the key; on the
unique-key states reachable from the source this is the single binding). -/
def eraseKey {α : Type _} (k : String) : List (String × α) → List (String × α)
  | [] => []
  | (k', v) :: rest =>
    if k' = k then eraseKey k rest else (k', v) :: eraseKey k rest

/-- Model of `f32::sqrt`, exact on perfect-square rationals. -/
def sqrtQ (q : ℚ) : ℚ := (Nat.sqrt q.num.toNat : ℚ) / (Nat.sqrt q.den : ℚ)

/-- `a.iter().zip(b.iter()).map(|(x, y)| x * y).sum()`. -/
def dotQ (a b : List ℚ) : ℚ := ((a.zip b).map (fun p => p.1 * p.2)).sum

/-- `v.iter().map(|x| x * x).sum()`. -/
def normSq (a : List ℚ) : ℚ := (a.map (fun x => x * x)).sum

/-! ## skypier-core/src/similarity.rs -/

/-- `cosine_similarity` (similarity.rs lines 3-17). -/
def cosine_similarity (a b : List ℚ) : Except VdbError ℚ :=
  if a.length ≠ b.length then .error .DimensionMismatch
  else
    let na := sqrtQ (normSq a)
    let nb := sqrtQ (normSq b)
    if na = 0 ∨ nb = 0 then .ok 0
    else .ok (dotQ a b / (na * nb))

/-- `euclidean_distance` (similarity.rs lines 19-32). -/
def euclidean_distance (a b : List ℚ) : Except VdbError ℚ :=
  if a.length ≠ b.length then .error .DimensionMismatch
  else .ok (sqrtQ (((a.zip b).map (fun p => (p.1 - p.2) ^ 2)).sum))

/-- `dot_product` (similarity.rs lines 34-40). -/
def dot_product (a b : List ℚ) : Except VdbError ℚ :=
  if a.length ≠ b.length then .error .DimensionMismatch
  else .ok (dotQ a b)

/-- `manhattan_distance` (similarity.rs lines 42-48). -/
def manhattan_distance (a b : List ℚ) : Except VdbError ℚ :=
  if a.length ≠ b.length then .error .DimensionMismatch
  else .ok (((a.zip b).map (fun p => |p.1 - p.2|)).sum)

/-! ## skypier-storage: the `Vector` record and the redb-backed store.

`serde_json` serialization of a record is invertible on this record type,
so the serialize-then-store/fetch-then-deserialize pipeline is modelled as
storing and fetching the record itself. -/

/-- `Vector` (skypier-storage/src/lib.rs): the persisted record.
`metadata` (`Option<HashMap<String, String>>`) is modelled as an optional
association list. -/
structure Vector where
  id : String
  data : List ℚ
  metadata : Option (List (String × String))
  collection : Option String
  created_at : Nat
deriving DecidableEq

/-- The vectors table of `RedbStorage` (redb_storage.rs): id → record. -/
structure RedbStorage where
  vectors : List (String × Vector)
deriving DecidableEq

/-- `RedbStorage::store_vector` (redb_storage.rs lines 48-64): upsert keyed
by `vector.id`. -/
def RedbStorage.store_vector (st : RedbStorage) (v : Vector) : RedbStorage :=
  ⟨assocInsert v.id v st.vectors⟩

/-- `RedbStorage::get_vector` (redb_storage.rs lines 66-84). -/
def RedbStorage.get_vector (st : RedbStorage) (id : String) : Option Vector :=
  alookup id st.vectors

/-- `RedbStorage::delete_vector` (redb_storage.rs lines 86-102): removes the
binding and reports whether it existed. -/
def RedbStorage.delete_vector (st : RedbStorage) (id : String) : RedbStorage × Bool :=
  (⟨eraseKey id st.vectors⟩, (alookup id st.vectors).isSome)

/-! ## skypier-index: the index interface result type and the flat index. -/

/-- `skypier_index::SearchResult` (index crate lib.rs). -/
structure SearchResult where
  id : String
  score : ℚ
deriving DecidableEq

/-- `FlatIndex` (flat.rs): a plain id → embedding map. -/
structure FlatIndex where
  vectors : List (String × List ℚ)
deriving DecidableEq

/-- `FlatIndex::cosine_similarity` (flat.rs lines 17-27): no length check;
zero-norm inputs give `0.0`. -/
def FlatIndex.cosine_similarity (a b : List ℚ) : ℚ :=
  let na := sqrtQ (normSq a)
  let nb := sqrtQ (normSq b)
  if na = 0 ∨ nb = 0 then 0 else dotQ a b / (na * nb)

/-- `FlatIndex::add_vector` (flat.rs lines 31-34). -/
def FlatIndex.add_vector (idx : FlatIndex) (id : String) (v : List ℚ) : FlatIndex :=
  ⟨assocInsert id v idx.vectors⟩

/-- `FlatIndex::remove_vector` (flat.rs lines 36-38). -/
def FlatIndex.remove_vector (idx : FlatIndex) (id : String) : FlatIndex × Bool :=
  (⟨eraseKey id idx.vectors⟩, (alookup id idx.vectors).isSome)

/-- The comparator of `results.sort_by` in `FlatIndex::search` (flat.rs
line 54): descending by score. -/
def descByScore (a b : SearchResult) : Bool := decide (b.score ≤ a.score)

/-- `FlatIndex::search` (flat.rs lines 40-60): score every stored
embedding with cosine similarity, sort descending by score (stable), take
the first `k`. -/
def FlatIndex.search (idx : FlatIndex) (query : List ℚ) (k : Nat) : List SearchResult :=
  let results := idx.vectors.map (fun p => SearchResult.mk p.1 (FlatIndex.cosine_similarity query p.2))
  (results.mergeSort descByScore).take k

/-- `FlatIndex::size` (flat.rs lines 62-64). -/
def FlatIndex.size (idx : FlatIndex) : Nat := idx.vectors.length

/-! ## skypier-index/src/hnsw.rs: the single-layer graph index. -/

/-- `Connection` (hnsw.rs lines 7-11).  The `distance` field stores the
value of `cosine_similarity(query, vector)` computed at push time. -/
structure Connection where
  id : String
  distance : ℚ
deriving DecidableEq

/-- The free function `cosine_similarity` of hnsw.rs (lines 219-229):
identical body to `FlatIndex::cosine_similarity`, no length check. -/
def hnswCosineSimilarity (a b : List ℚ) : ℚ :=
  let na := sqrtQ (normSq a)
  let nb := sqrtQ (normSq b)
  if na = 0 ∨ nb = 0 then 0 else dotQ a b / (na * nb)

/-- `BinaryHeap::pop`/`peek` under the reversed `Ord` of `Connection`
(hnsw.rs lines 27-35): yields the element with the minimal `distance`
field and the remaining elements. -/
def heapPop : List Connection → Option (Connection × List Connection)
  | [] => none
  | c :: rest =>
    match heapPop rest with
    | none => some (c, [])
    | some (m, rest') =>
      if c.distance ≤ m.distance then some (c, rest) else some (m, c :: rest')

/-- `BinaryHeap::push`. -/
def heapPush (c : Connection) (h : List Connection) : List Connection := c :: h

/-- `BinaryHeap::into_sorted_vec` under the reversed `Ord`: ascending in
heap order, hence descending by the `distance` field. -/
def heapIntoSortedVec (h : List Connection) : List Connection :=
  h.mergeSort (fun a b => decide (b.distance ≤ a.distance))

/-- `Node` (hnsw.rs lines 37-42). -/
structure Node where
  id : String
  vector : List ℚ
  connections : List String
deriving DecidableEq

/-- `HnswIndex` (hnsw.rs lines 44-49). -/
structure HnswIndex where
  nodes : List (String × Node)
  entry_point : Option String
  max_connections : Nat
  ef_construction : Nat
deriving DecidableEq

/-- `HnswIndex::new` (hnsw.rs lines 52-59): the dimension argument is
ignored by the source. -/
def HnswIndex.new (_dimensions : Nat) : HnswIndex :=
  { nodes := [], entry_point := none, max_connections := 16, ef_construction := 200 }

/-- The mutable state of the `search_layer` traversal: the `visited` set,
the `candidates` heap and the result frontier `w`. -/
structure TraversalState where
  visited : List String
  candidates : List Connection
  w : List Connection
deriving DecidableEq

/-- The body of the `for neighbor_id in &node.connections` loop inside
`search_layer` (hnsw.rs lines 93-118), executed on one neighbor id. -/
def processNeighbor (nodes : List (String × Node)) (query : List ℚ) (num_closest : Nat)
    (st : TraversalState) (neighbor_id : String) : TraversalState :=
  if neighbor_id ∈ st.visited then st
  else
    let visited' := neighbor_id :: st.visited
    match alookup neighbor_id nodes with
    | none => { st with visited := visited' }
    | some neighbor =>
      let distance := hnswCosineSimilarity query neighbor.vector
      let conn : Connection := ⟨neighbor_id, distance⟩
      if st.w.length < num_closest then
        { visited := visited', candidates := heapPush conn st.candidates,
          w := heapPush conn st.w }
      else
        match heapPop st.w with
        | none => { st with visited := visited' }
        | some (f, _) =>
          if distance < f.distance then
            let w1 := heapPush conn st.w
            let w2 := if w1.length > num_closest then
                match heapPop w1 with
                | some (_, rest) => rest
                | none => w1
              else w1
            { visited := visited', candidates := heapPush conn st.candidates, w := w2 }
          else { st with visited := visited' }

/-- The `while let Some(c) = candidates.pop()` loop of `search_layer`
(hnsw.rs lines 85-120), with explicit fuel.  The loop makes at most one
iteration per heap push, so any fuel at least
`entry_points.length + nodes.length` runs it to completion. -/
def searchLayerLoop (nodes : List (String × Node)) (query : List ℚ) (num_closest : Nat) :
    Nat → TraversalState → List Connection
  | 0, st => st.w
  | fuel + 1, st =>
    match heapPop st.candidates with
    | none => st.w
    | some (c, rest) =>
      let breakNow :=
        match heapPop st.w with
        | some (f, _) => decide (f.distance < c.distance)
        | none => false
      if breakNow then st.w
      else
        let st1 : TraversalState := { st with candidates := rest }
        let st2 :=
          match alookup c.id nodes with
          | none => st1
          | some node => node.connections.foldl (processNeighbor nodes query num_closest) st1
        searchLayerLoop nodes query num_closest fuel st2

/-- The entry-point initialization of `search_layer` (hnsw.rs lines 71-83). -/
def initTraversal (nodes : List (String × Node)) (query : List ℚ)
    (entry_points : List String) : TraversalState :=
  entry_points.foldl
    (fun st ep =>
      match alookup ep nodes with
      | some node =>
        let conn : Connection := ⟨ep, hnswCosineSimilarity query node.vector⟩
        { visited := ep :: st.visited, candidates := heapPush conn st.candidates,
          w := heapPush conn st.w }
      | none => st)
    ⟨[], [], []⟩

/-- `HnswIndex::search_layer` (hnsw.rs lines 61-123). -/
def HnswIndex.search_layer (idx : HnswIndex) (query : List ℚ)
    (entry_points : List String) (num_closest : Nat) : List Connection :=
  let st := initTraversal idx.nodes query entry_points
  heapIntoSortedVec
    (searchLayerLoop idx.nodes query num_closest
      (entry_points.length + idx.nodes.length + 1) st)

/-- `HnswIndex::add_vector` (hnsw.rs lines 127-167). -/
def HnswIndex.add_vector (idx : HnswIndex) (id : String) (vector : List ℚ) : HnswIndex :=
  match idx.entry_point with
  | none =>
    { idx with entry_point := some id,
               nodes := assocInsert id ⟨id, vector, []⟩ idx.nodes }
  | some entry_point =>
    let candidates := idx.search_layer vector [entry_point] idx.ef_construction
    let selected := (candidates.take idx.max_connections).map (·.id)
    let nodes1 := selected.foldl
      (fun ns neighbor_id =>
        match alookup neighbor_id ns with
        | some neighbor =>
          let conns := neighbor.connections ++ [id]
          let conns := if conns.length > idx.max_connections then
              conns.take idx.max_connections
            else conns
          assocInsert neighbor_id { neighbor with connections := conns } ns
        | none => ns)
      idx.nodes
    { idx with nodes := assocInsert id ⟨id, vector, selected⟩ nodes1 }

/-- `HnswIndex::remove_vector` (hnsw.rs lines 169-187). -/
def HnswIndex.remove_vector (idx : HnswIndex) (id : String) : HnswIndex × Bool :=
  match alookup id idx.nodes with
  | none => (idx, false)
  | some node =>
    let nodes1 := eraseKey id idx.nodes
    let nodes2 := node.connections.foldl
      (fun ns neighbor_id =>
        match alookup neighbor_id ns with
        | some neighbor =>
          assocInsert neighbor_id
            { neighbor with connections := neighbor.connections.filter (fun c => c ≠ id) } ns
        | none => ns)
      nodes1
    let ep := if idx.entry_point = some id then nodes2.head?.map (·.1) else idx.entry_point
    ({ idx with nodes := nodes2, entry_point := ep }, true)

/-- `HnswIndex::search` (hnsw.rs lines 189-206). -/
def HnswIndex.search (idx : HnswIndex) (query : List ℚ) (k : Nat) : List SearchResult :=
  match idx.entry_point with
  | some entry_point =>
    ((idx.search_layer query [entry_point] (max k 50)).take k).map
      (fun conn => SearchResult.mk conn.id conn.distance)
  | none => []

/-- `HnswIndex::size` (hnsw.rs lines 208-210). -/
def HnswIndex.size (idx : HnswIndex) : Nat := idx.nodes.length

/-- `HnswIndex::clear` (hnsw.rs lines 212-215). -/
def HnswIndex.clear (idx : HnswIndex) : HnswIndex :=
  { idx with nodes := [], entry_point := none }

/-! ## skypier-core/src/database.rs: the orchestrator. -/

/-- `DistanceMetric` (core lib.rs). -/
inductive DistanceMetric where
  | Cosine
  | Euclidean
  | DotProduct
deriving DecidableEq

/-- `skypier_core::SearchResult` (core lib.rs): the orchestrator-level
result carrying the record's metadata. -/
structure CoreSearchResult where
  id : String
  score : ℚ
  metadata : Option (List (String × String))
deriving DecidableEq

/-- `VectorDatabase` (database.rs lines 11-16). -/
structure VectorDatabase where
  storage : RedbStorage
  index : HnswIndex
  distance_metric : DistanceMetric
  dimensions : Option Nat
deriving DecidableEq

/-- `VectorDatabase::new` (database.rs lines 19-29): empty store, a fresh
graph index, cosine metric, `dimensions: None`. -/
def VectorDatabase.new : VectorDatabase :=
  { storage := ⟨[]⟩, index := HnswIndex.new 768,
    distance_metric := .Cosine, dimensions := none }

/-- The dimension validation at the head of the `insert_vectors` loop body
(database.rs lines 36-45): fails only when `dimensions` is `Some` and the
lengths differ.  The source never assigns `dimensions`, so this is the
check exactly as written, over whatever value the field holds. -/
def dimCheckFails (dims : Option Nat) (v : Vector) : Bool :=
  match dims with
  | some d => decide (v.data.length ≠ d)
  | none => false

/-- The `for vector in vectors` loop of `VectorDatabase::insert_vectors`
(database.rs lines 35-54): validate, persist to the store, add to the
index, append the id; stop with an error at the first failing record,
keeping the effects of the earlier ones. -/
def insertLoop : VectorDatabase → List String → List Vector →
    VectorDatabase × Except VdbError (List String)
  | db, ids, [] => (db, .ok ids.reverse)
  | db, ids, v :: rest =>
    if dimCheckFails db.dimensions v then (db, .error .DimensionMismatch)
    else
      insertLoop
        { db with storage := db.storage.store_vector v,
                  index := db.index.add_vector v.id v.data }
        (v.id :: ids) rest

/-- `VectorDatabase::insert_vectors` (database.rs lines 31-57).  Note that
the source takes `&self` and never writes `self.dimensions`. -/
def VectorDatabase.insert_vectors (db : VectorDatabase) (vectors : List Vector) :
    VectorDatabase × Except VdbError (List String) :=
  insertLoop db [] vectors

/-- The `for candidate in candidates` loop of `VectorDatabase::search`
(database.rs lines 74-88): keep a candidate when its score passes the
threshold and its record is in the store; after each candidate, stop once
`k` results are kept. -/
def searchLoop (storage : List (String × Vector)) (threshold : ℚ) (k : Nat) :
    List SearchResult → List CoreSearchResult → List CoreSearchResult
  | [], results => results
  | c :: rest, results =>
    let results' :=
      if threshold ≤ c.score then
        match alookup c.id storage with
        | some v => results ++ [⟨c.id, c.score, v.metadata⟩]
        | none => results
      else results
    if k ≤ results'.length then results'
    else searchLoop storage threshold k rest results'

/-- `VectorDatabase::search` (database.rs lines 63-91): ask the index for
`k*2` candidates, then filter them in order. -/
def VectorDatabase.search (db : VectorDatabase) (query : List ℚ) (k : Nat)
    (threshold : ℚ) : List CoreSearchResult :=
  searchLoop db.storage.vectors threshold k (db.index.search query (k * 2)) []

/-- `VectorDatabase::get_vector` (database.rs lines 59-61). -/
def VectorDatabase.get_vector (db : VectorDatabase) (id : String) : Option Vector :=
  db.storage.get_vector id

/-- `VectorDatabase::delete_vector` (database.rs lines 126-133): delete
from the store first; touch the index only when the store confirms the id
existed. -/
def VectorDatabase.delete_vector (db : VectorDatabase) (id : String) :
    VectorDatabase × Bool :=
  let deleted := db.storage.delete_vector id
  if deleted.2 then
    ({ db with storage := deleted.1, index := (db.index.remove_vector id).1 }, true)
  else
    ({ db with storage := deleted.1 }, false)

/-! ## Sample states used by concrete evaluations. -/

/-- Record with a 1-dimensional embedding. -/
def sampleVecA : Vector := ⟨"a", [1], none, none, 0⟩

/-- Record with a 2-dimensional embedding. -/
def sampleVecB : Vector := ⟨"b", [1, 0], none, none, 0⟩

/-- A database holding the single record `sampleVecA`. -/
def sampleDb : VectorDatabase :=
  { VectorDatabase.new with storage := ⟨[("a", sampleVecA)]⟩ }

/-- A two-node graph: the entry point `"a"` (embedding `[0,1]`) has the
single neighbor `"b"` (embedding `[1,0]`). -/
def sampleHnsw : HnswIndex :=
  { nodes := [("a", ⟨"a", [0, 1], ["b"]⟩), ("b", ⟨"b", [1, 0], []⟩)],
    entry_point := some "a", max_connections := 16, ef_construction := 200 }

/-- A two-entry flat index. -/
def sampleFlat : FlatIndex := ⟨[("a", [1, 0]), ("b", [0, 1])]⟩

/-- The entry-point invariant of the graph index: `entry_point` is `None`
only when the node table is empty, and otherwise names a key of the
table. -/
def EpInv (idx : HnswIndex) : Prop :=
  match idx.entry_point with
  | none => idx.nodes = []
  | some e => (alookup e idx.nodes).isSome = true

/-- The keep-condition of the orchestrator search loop, phrased as a
candidate-wise partial function: a candidate is kept exactly when its
score passes the threshold and its record exists in the store. -/
def keepCandidate (storage : List (String × Vector)) (threshold : ℚ)
    (c : SearchResult) : Option CoreSearchResult :=
  if threshold ≤ c.score then
    (alookup c.id storage).map (fun v => ⟨c.id, c.score, v.metadata⟩)
  else none

/-! ## Association-list lemmas. -/

theorem alookup_assocInsert_self {α : Type _} (k : String) (v : α) (l : List (String × α)) :
    alookup k (assocInsert k v l) = some v := by
  induction l with
  | nil => simp [assocInsert, alookup]
  | cons p rest ih =>
    obtain ⟨k', v'⟩ := p
    by_cases h : k' = k
    · simp [assocInsert, h, alookup]
    · simp [assocInsert, h, alookup, ih]

theorem alookup_assocInsert_ne {α : Type _} {k x : String} (hne : k ≠ x) (v : α)
    (l : List (String × α)) : alookup x (assocInsert k v l) = alookup x l := by
  induction l with
  | nil => simp [assocInsert, alookup, hne]
  | cons p rest ih =>
    obtain ⟨k', v'⟩ := p
    by_cases h : k' = k
    · subst h
      simp [assocInsert, alookup, hne, ih]
    · simp [assocInsert, alookup, h, ih]

theorem isSome_alookup_assocInsert {α : Type _} {x : String} {l : List (String × α)}
    (k : String) (v : α) (h : (alookup x l).isSome = true) :
    (alookup x (assocInsert k v l)).isSome = true := by
  by_cases hkx : k = x
  · subst hkx
    simp [alookup_assocInsert_self]
  · rwa [alookup_assocInsert_ne hkx]

theorem alookup_eraseKey_self {α : Type _} (k : String) (l : List (String × α)) :
    alookup k (eraseKey k l) = none := by
  induction l with
  | nil => simp [eraseKey, alookup]
  | cons p rest ih =>
    obtain ⟨k', v'⟩ := p
    by_cases h : k' = k
    · simp [eraseKey, h, ih]
    · simp [eraseKey, alookup, h, ih]

theorem alookup_eraseKey_ne {α : Type _} {k x : String} (hne : k ≠ x)
    (l : List (String × α)) : alookup x (eraseKey k l) = alookup x l := by
  induction l with
  | nil => simp [eraseKey]
  | cons p rest ih =>
    obtain ⟨k', v'⟩ := p
    by_cases h : k' = k
    · subst h
      have : k' ≠ x := hne
      simp [eraseKey, alookup, this, ih]
    · simp [eraseKey, alookup, h, ih]

theorem eraseKey_of_alookup_none {α : Type _} {k : String} {l : List (String × α)}
    (h : alookup k l = none) : eraseKey k l = l := by
  induction l with
  | nil => simp [eraseKey]
  | cons p rest ih =>
    obtain ⟨k', v'⟩ := p
    by_cases hk : k' = k
    · simp [alookup, hk] at h
    · simp [alookup, hk] at h
      simp [eraseKey, hk, ih h]

theorem length_assocInsert_of_isSome {α : Type _} {k : String} {l : List (String × α)}
    (v : α) (h : (alookup k l).isSome = true) :
    (assocInsert k v l).length = l.length := by
  induction l with
  | nil => simp [alookup] at h
  | cons p rest ih =>
    obtain ⟨k', v'⟩ := p
    by_cases hk : k' = k
    · simp [assocInsert, hk]
    · simp [alookup, hk] at h
      simp [assocInsert, hk, ih h]

theorem mem_keys_assocInsert {α : Type _} {x : String} {k : String} {v : α}
    {l : List (String × α)} (h : x ∈ (assocInsert k v l).map Prod.fst) :
    x = k ∨ x ∈ l.map Prod.fst := by
  induction l with
  | nil => simpa [assocInsert] using h
  | cons p rest ih =>
    obtain ⟨k', v'⟩ := p
    by_cases hk : k' = k
    · subst hk
      simpa [assocInsert] using h
    · simp only [assocInsert, hk, if_false, List.map_cons, List.mem_cons] at h
      rcases h with h | h
      · exact Or.inr (by simp [h])
      · rcases ih h with h | h
        · exact Or.inl h
        · exact Or.inr (by simp [h])

theorem nodup_keys_assocInsert {α : Type _} {k : String} {v : α} {l : List (String × α)}
    (h : (l.map Prod.fst).Nodup) : ((assocInsert k v l).map Prod.fst).Nodup := by
  induction l with
  | nil => simp [assocInsert]
  | cons p rest ih =>
    obtain ⟨k', v'⟩ := p
    simp only [List.map_cons, List.nodup_cons] at h
    by_cases hk : k' = k
    · subst hk
      simpa [assocInsert] using h
    · simp only [assocInsert, hk, if_false, List.map_cons]
      refine List.nodup_cons.mpr ⟨?_, ih h.2⟩
      intro hmem
      rcases mem_keys_assocInsert hmem with hx | hx
      · exact hk hx
      · exact h.1 hx

theorem alookup_of_mem_nodup {α : Type _} {l : List (String × α)} {p : String × α}
    (hnd : (l.map Prod.fst).Nodup) (hp : p ∈ l) : alookup p.1 l = some p.2 := by
  induction l with
  | nil => cases hp
  | cons q rest ih =>
    obtain ⟨k', v'⟩ := q
    simp only [List.map_cons, List.nodup_cons] at hnd
    rcases List.mem_cons.mp hp with h | h
    · subst h
      simp [alookup]
    · have hne : k' ≠ p.1 := by
        intro hcontra
        exact hnd.1 (hcontra ▸ List.mem_map_of_mem Prod.fst h)
      simp [alookup, hne, ih hnd.2 h]

theorem foldl_preserve {σ α : Type _} {P : σ → Prop} {f : σ → α → σ}
    (hstep : ∀ s a, P s → P (f s a)) :
    ∀ (l : List α) (s : σ), P s → P (l.foldl f s) := by
  intro l
  induction l with
  | nil => intro s hs; exact hs
  | cons a rest ih => intro s hs; exact ih (f s a) (hstep s a hs)

/-! ## Heap lemmas. -/

theorem heapPop_mem {l : List Connection} {m : Connection} {r : List Connection}
    (h : heapPop l = some (m, r)) : m ∈ l := by
  induction l generalizing m r with
  | nil => simp [heapPop] at h
  | cons c rest ih =>
    cases hp : heapPop rest with
    | none =>
      simp only [heapPop, hp] at h
      cases h
      exact List.mem_cons_self _ _
    | some p =>
      obtain ⟨m', rest'⟩ := p
      simp only [heapPop, hp] at h
      by_cases hle : c.distance ≤ m'.distance
      · rw [if_pos hle] at h
        cases h
        exact List.mem_cons_self _ _
      · rw [if_neg hle] at h
        cases h
        exact List.mem_cons_of_mem _ (ih hp)

theorem heapPop_subset {l : List Connection} {m : Connection} {r : List Connection}
    (h : heapPop l = some (m, r)) : ∀ x ∈ r, x ∈ l := by
  induction l generalizing m r with
  | nil => simp [heapPop] at h
  | cons c rest ih =>
    cases hp : heapPop rest with
    | none =>
      simp only [heapPop, hp] at h
      cases h
      intro x hx
      cases hx
    | some p =>
      obtain ⟨m', rest'⟩ := p
      simp only [heapPop, hp] at h
      by_cases hle : c.distance ≤ m'.distance
      · rw [if_pos hle] at h
        cases h
        intro x hx
        exact List.mem_cons_of_mem _ hx
      · rw [if_neg hle] at h
        cases h
        intro x hx
        rcases List.mem_cons.mp hx with hx | hx
        · exact hx ▸ List.mem_cons_self _ _
        · exact List.mem_cons_of_mem _ (ih hp x hx)

/-! ## Traversal invariant: every frontier member is a key of the node
table.  This is the load-bearing fact behind the removal/search claim. -/

theorem processNeighbor_w_invariant {nodes : List (String × Node)} {query : List ℚ}
    {num_closest : Nat} {st : TraversalState} {nid : String}
    (h : ∀ c ∈ st.w, (alookup c.id nodes).isSome = true) :
    ∀ c ∈ (processNeighbor nodes query num_closest st nid).w,
      (alookup c.id nodes).isSome = true := by
  intro c hc
  simp only [processNeighbor, heapPush] at hc
  split at hc
  · exact h c hc
  · split at hc
    · exact h c hc
    · rename_i neighbor hl
      split at hc
      · rcases List.mem_cons.mp hc with rfl | hmem
        · simp [hl]
        · exact h c hmem
      · split at hc
        · exact h c hc
        · rename_i f w' hpop
          split at hc
          · split at hc
            · split at hc
              · rename_i a rest2 hpop2
                have hsub := heapPop_subset hpop2 c hc
                rcases List.mem_cons.mp hsub with rfl | hmem
                · simp [hl]
                · exact h c hmem
              · rcases List.mem_cons.mp hc with rfl | hmem
                · simp [hl]
                · exact h c hmem
            · rcases List.mem_cons.mp hc with rfl | hmem
              · simp [hl]
              · exact h c hmem
          · exact h c hc

theorem searchLayerLoop_w_invariant {nodes : List (String × Node)} {query : List ℚ}
    {num_closest : Nat} :
    ∀ (fuel : Nat) (st : TraversalState),
      (∀ c ∈ st.w, (alookup c.id nodes).isSome = true) →
      ∀ c ∈ searchLayerLoop nodes query num_closest fuel st,
        (alookup c.id nodes).isSome = true := by
  intro fuel
  induction fuel with
  | zero =>
    intro st h c hc
    exact h c hc
  | succ n ih =>
    intro st h c hc
    simp only [searchLayerLoop] at hc
    split at hc
    · exact h c hc
    · rename_i cand rest hpop
      split at hc
      · exact h c hc
      · refine ih _ ?_ c hc
        cases hlook : alookup cand.id nodes with
        | none =>
          simp only [hlook]
          exact h
        | some node =>
          simp only [hlook]
          exact foldl_preserve
            (P := fun (s : TraversalState) =>
              ∀ c ∈ s.w, (alookup (Connection.id c) nodes).isSome = true)
            (fun s a hs => processNeighbor_w_invariant hs) node.connections _ h

theorem initTraversal_w_invariant {nodes : List (String × Node)} {query : List ℚ}
    {eps : List String} :
    ∀ c ∈ (initTraversal nodes query eps).w, (alookup c.id nodes).isSome = true := by
  unfold initTraversal
  refine foldl_preserve
    (P := fun (s : TraversalState) =>
      ∀ c ∈ s.w, (alookup (Connection.id c) nodes).isSome = true)
    ?_ eps (⟨[], [], []⟩ : TraversalState) ?_
  · intro s ep hs c hc
    cases hl : alookup ep nodes with
    | none =>
      rw [hl] at hc
      exact hs c hc
    | some node =>
      rw [hl] at hc
      simp only [heapPush] at hc
      rcases List.mem_cons.mp hc with rfl | hmem
      · simp [hl]
      · exact hs c hmem
  · intro c hc
    cases hc

theorem search_layer_mem {idx : HnswIndex} {query : List ℚ} {eps : List String}
    {num_closest : Nat} :
    ∀ c ∈ idx.search_layer query eps num_closest,
      (alookup c.id idx.nodes).isSome = true := by
  intro c hc
  simp only [HnswIndex.search_layer, heapIntoSortedVec, List.mem_mergeSort] at hc
  exact searchLayerLoop_w_invariant _ _ initTraversal_w_invariant c hc

theorem hnsw_search_id_mem {idx : HnswIndex} {query : List ℚ} {k : Nat} :
    ∀ r ∈ idx.search query k, (alookup r.id idx.nodes).isSome = true := by
  intro r hr
  unfold HnswIndex.search at hr
  split at hr
  · rcases List.mem_map.mp hr with ⟨conn, hconn, rfl⟩
    exact search_layer_mem conn (List.mem_of_mem_take hconn)
  · cases hr

theorem remove_vector_alookup_none {idx : HnswIndex} {id : String}
    (h : (idx.remove_vector id).2 = true) :
    alookup id ((idx.remove_vector id).1).nodes = none := by
  cases hl : alookup id idx.nodes with
  | none => simp [HnswIndex.remove_vector, hl] at h
  | some node =>
    simp only [HnswIndex.remove_vector, hl]
    refine foldl_preserve (P := fun ns => alookup id ns = none)
      ?_ node.connections (eraseKey id idx.nodes) ?_
    · intro ns nid hns
      cases hln : alookup nid ns with
      | none =>
        simp only [hln]
        exact hns
      | some nb =>
        have hne : nid ≠ id := by
          intro e
          rw [e, hns] at hln
          cases hln
        simp only [hln]
        rw [alookup_assocInsert_ne hne]
        exact hns
    · exact alookup_eraseKey_self id idx.nodes

/-! ## Entry-point invariant lemmas. -/

theorem EpInv_iff {idx : HnswIndex} (h : EpInv idx) :
    idx.entry_point = none ↔ idx.nodes = [] := by
  constructor
  · intro he
    simpa only [EpInv, he] using h
  · intro hn
    cases he : idx.entry_point with
    | none => rfl
    | some e =>
      simp [EpInv, he, hn, alookup] at h

theorem EpInv_mk_head (ns : List (String × Node)) (mc ef : Nat) :
    EpInv { nodes := ns, entry_point := ns.head?.map Prod.fst,
            max_connections := mc, ef_construction := ef } := by
  cases ns with
  | nil => simp [EpInv]
  | cons p tail =>
    obtain ⟨k, nd⟩ := p
    simp [EpInv, alookup]

theorem EpInv_add {idx : HnswIndex} (h : EpInv idx) (id : String) (v : List ℚ) :
    EpInv (idx.add_vector id v) := by
  cases he : idx.entry_point with
  | none =>
    simp [HnswIndex.add_vector, he, EpInv, alookup_assocInsert_self]
  | some e =>
    simp only [HnswIndex.add_vector, he, EpInv]
    refine isSome_alookup_assocInsert _ _ ?_
    refine foldl_preserve (P := fun (ns : List (String × Node)) =>
      (alookup e ns).isSome = true) ?_ _ _ ?_
    · intro ns a hns
      cases hl : alookup a ns with
      | none => simpa only [hl] using hns
      | some nb =>
        simp only [hl]
        exact isSome_alookup_assocInsert _ _ hns
    · simpa only [EpInv, he] using h

theorem EpInv_remove {idx : HnswIndex} (h : EpInv idx) (id : String) :
    EpInv (idx.remove_vector id).1 := by
  cases hl : alookup id idx.nodes with
  | none => simpa [HnswIndex.remove_vector, hl] using h
  | some node =>
    by_cases he : idx.entry_point = some id
    · simp only [HnswIndex.remove_vector, hl, he, if_pos]
      exact EpInv_mk_head _ _ _
    · simp only [HnswIndex.remove_vector, hl, if_neg he]
      cases hep : idx.entry_point with
      | none =>
        simp only [EpInv, hep] at h
        rw [h] at hl
        simp [alookup] at hl
      | some e =>
        have hne : id ≠ e := by
          intro hc
          exact he (by rw [hep, hc])
        simp only [EpInv, hep] at h ⊢
        refine foldl_preserve (P := fun (ns : List (String × Node)) =>
          (alookup e ns).isSome = true) ?_ _ _ ?_
        · intro ns a hns
          cases hla : alookup a ns with
          | none => simpa only [hla] using hns
          | some nb =>
            simp only [hla]
            exact isSome_alookup_assocInsert _ _ hns
        · show (alookup e (eraseKey id idx.nodes)).isSome = true
          rw [alookup_eraseKey_ne hne]
          exact h

theorem EpInv_clear (idx : HnswIndex) : EpInv idx.clear := by
  simp [HnswIndex.clear, EpInv]

/-! ## Flat-index search lemmas. -/

theorem flat_search_provenance {idx : FlatIndex} {query : List ℚ} {k : Nat} :
    ∀ r ∈ idx.search query k, ∃ p ∈ idx.vectors,
      r = SearchResult.mk p.1 (FlatIndex.cosine_similarity query p.2) := by
  intro r hr
  simp only [FlatIndex.search] at hr
  have hr2 := List.mem_of_mem_take hr
  rw [List.mem_mergeSort] at hr2
  rcases List.mem_map.mp hr2 with ⟨p, hp, rfl⟩
  exact ⟨p, hp, rfl⟩

theorem flat_search_length {idx : FlatIndex} {query : List ℚ} {k : Nat} :
    (idx.search query k).length ≤ k := by
  simp only [FlatIndex.search, List.length_take]
  exact min_le_left _ _

theorem flat_search_sorted {idx : FlatIndex} {query : List ℚ} {k : Nat} :
    (idx.search query k).Pairwise (fun a b => b.score ≤ a.score) := by
  simp only [FlatIndex.search]
  have hs : (List.mergeSort
      (idx.vectors.map (fun p => SearchResult.mk p.1 (FlatIndex.cosine_similarity query p.2)))
      descByScore).Pairwise (fun a b => descByScore a b = true) := by
    refine List.sorted_mergeSort ?_ ?_ _
    · intro a b c hab hbc
      simp only [descByScore, decide_eq_true_eq] at *
      exact le_trans hbc hab
    · intro a b
      simp only [descByScore, Bool.or_eq_true, decide_eq_true_eq]
      exact le_total b.score a.score
  have hs2 := hs.imp (fun hab => by
    simpa only [descByScore, decide_eq_true_eq] using hab)
  exact List.Pairwise.sublist (List.take_sublist _ _) hs2

theorem flat_search_complete {idx : FlatIndex} {query : List ℚ} {k : Nat}
    (h : idx.vectors.length ≤ k) :
    ∀ p ∈ idx.vectors,
      SearchResult.mk p.1 (FlatIndex.cosine_similarity query p.2) ∈ idx.search query k := by
  intro p hp
  simp only [FlatIndex.search]
  rw [List.take_of_length_le]
  · exact List.mem_mergeSort.mpr (List.mem_map_of_mem _ hp)
  · rw [List.length_mergeSort, List.length_map]
    exact h

/-! ## Orchestrator search-loop characterization. -/

theorem searchLoop_eq (storage : List (String × Vector)) (t : ℚ) (k : Nat) :
    ∀ (cands : List SearchResult) (acc : List CoreSearchResult), acc.length < k →
      searchLoop storage t k cands acc =
        (acc ++ cands.filterMap (keepCandidate storage t)).take k := by
  intro cands
  induction cands with
  | nil =>
    intro acc hlt
    simp only [searchLoop, List.filterMap_nil, List.append_nil]
    exact (List.take_of_length_le (le_of_lt hlt)).symm
  | cons c rest ih =>
    intro acc hlt
    by_cases hts : t ≤ c.score
    · cases hl : alookup c.id storage with
      | none =>
        have hkeep : keepCandidate storage t c = none := by
          simp [keepCandidate, hts, hl]
        simp only [searchLoop, if_pos hts, hl]
        rw [if_neg (not_le.mpr hlt), ih acc hlt, List.filterMap_cons, hkeep]
      | some v =>
        have hkeep : keepCandidate storage t c =
            some ⟨c.id, c.score, v.metadata⟩ := by
          simp [keepCandidate, hts, hl]
        by_cases hk : k ≤ acc.length + 1
        · have hkeq : k = acc.length + 1 := le_antisymm hk hlt
          simp only [searchLoop, if_pos hts, hl]
          rw [if_pos (by simpa using hk), List.filterMap_cons, hkeep, hkeq]
          rw [List.take_append_eq_append_take,
              List.take_of_length_le (Nat.le_succ _)]
          simp
        · simp only [searchLoop, if_pos hts, hl]
          rw [if_neg (by simpa using hk)]
          have hlt2 : (acc ++ [(⟨c.id, c.score, v.metadata⟩ : CoreSearchResult)]).length < k := by
            simpa using not_le.mp hk
          rw [ih _ hlt2, List.filterMap_cons, hkeep, List.append_assoc]
          simp
    · have hkeep : keepCandidate storage t c = none := by
        simp [keepCandidate, hts]
      simp only [searchLoop, if_neg hts]
      rw [if_neg (not_le.mpr hlt), ih acc hlt, List.filterMap_cons, hkeep]

theorem hnsw_search_zero (idx : HnswIndex) (query : List ℚ) :
    idx.search query 0 = [] := by
  unfold HnswIndex.search
  cases idx.entry_point <;> simp

/-! ## The orchestrator never assigns `dimensions`. -/

theorem insertLoop_dimensions :
    ∀ (vs : List Vector) (db : VectorDatabase) (ids : List String),
      ((insertLoop db ids vs).1).dimensions = db.dimensions := by
  intro vs
  induction vs with
  | nil => intro db ids; rfl
  | cons v rest ih =>
    intro db ids
    simp only [insertLoop]
    split
    · rfl
    · exact ih _ _

/-! ## Claim theorems. -/

/-- C3: `VectorDatabase::search` asks the index for `k*2` candidates,
processes them in the order returned by the index, keeps a candidate
exactly when its score is at least the threshold and its record exists in
the store, stops once `k` results are kept, and therefore returns
precisely the first `k` kept candidates in index order, with no
re-sorting. -/
theorem search_keeps_filter_take (db : VectorDatabase) (query : List ℚ) (k : Nat)
    (threshold : ℚ) :
    db.search query k threshold =
      ((db.index.search query (k * 2)).filterMap
        (keepCandidate db.storage.vectors threshold)).take k := by
  cases k with
  | zero =>
    unfold VectorDatabase.search
    rw [Nat.zero_mul, hnsw_search_zero]
    simp [searchLoop]
  | succ n =>
    unfold VectorDatabase.search
    simpa using searchLoop_eq db.storage.vectors threshold (n + 1)
      (db.index.search query ((n + 1) * 2)) [] (Nat.succ_pos n)

/-- C4: storing a record with `store_vector` and then fetching it by its
id with `get_vector` returns a record equal in every field: id, embedding
data, metadata, collection tag and creation time. -/
theorem store_get_roundtrip (st : RedbStorage) (r : Vector) :
    ∃ fetched, (st.store_vector r).get_vector r.id = some fetched ∧
      fetched.id = r.id ∧ fetched.data = r.data ∧ fetched.metadata = r.metadata ∧
      fetched.collection = r.collection ∧ fetched.created_at = r.created_at :=
  ⟨r, by simp [RedbStorage.store_vector, RedbStorage.get_vector, alookup_assocInsert_self],
    rfl, rfl, rfl, rfl, rfl⟩

/-- C5: `VectorDatabase::delete_vector` deletes from the store first and
touches the index only when the store confirms the id existed; deleting an
absent id returns `false` and leaves the whole database (index included)
unchanged, and deleting a present id twice returns `true` then `false`. -/
theorem delete_vector_spec (db : VectorDatabase) (id : String) :
    (db.storage.get_vector id = none → db.delete_vector id = (db, false)) ∧
    ((db.storage.get_vector id).isSome = true →
      (db.delete_vector id).2 = true ∧
      (((db.delete_vector id).1).delete_vector id).2 = false ∧
      ((db.delete_vector id).1).index = (db.index.remove_vector id).1) := by
  constructor
  · intro h
    have h' : alookup id db.storage.vectors = none := h
    simp [VectorDatabase.delete_vector, RedbStorage.delete_vector, h',
      eraseKey_of_alookup_none h']
  · intro h
    have h' : (alookup id db.storage.vectors).isSome = true := h
    refine ⟨?_, ?_, ?_⟩
    · simp [VectorDatabase.delete_vector, RedbStorage.delete_vector, h']
    · simp [VectorDatabase.delete_vector, RedbStorage.delete_vector, h',
        alookup_eraseKey_self]
    · simp [VectorDatabase.delete_vector, RedbStorage.delete_vector, h']

/-- C6: once `remove_vector(id)` returns `true` on the graph index, no
search on the resulting index, whatever the query and `k`, returns a
result carrying that id (searches do not mutate the index, so this holds
for every subsequent search until the id is re-added). -/
theorem remove_then_search_never_returns (idx : HnswIndex) (id : String)
    (h : (idx.remove_vector id).2 = true) (query : List ℚ) (k : Nat)
    (r : SearchResult) (hr : r ∈ ((idx.remove_vector id).1).search query k) :
    r.id ≠ id := by
  intro he
  have h1 := hnsw_search_id_mem r hr
  rw [he, remove_vector_alookup_none h] at h1
  simp at h1

/-- C7: `FlatIndex::search` returns at most `k` results, sorted in
descending order of score, every returned score being the cosine
similarity of the query against the stored embedding of the returned id
(the flat index takes no metric parameter: it always uses cosine); and
when `k` covers the whole table every stored embedding is scored and
returned. -/
theorem flat_search_spec (idx : FlatIndex) (query : List ℚ) (k : Nat) :
    (idx.search query k).length ≤ k ∧
    (idx.search query k).Pairwise (fun a b => b.score ≤ a.score) ∧
    (∀ r ∈ idx.search query k, ∃ p ∈ idx.vectors,
      r = SearchResult.mk p.1 (FlatIndex.cosine_similarity query p.2)) ∧
    (idx.vectors.length ≤ k → ∀ p ∈ idx.vectors,
      SearchResult.mk p.1 (FlatIndex.cosine_similarity query p.2) ∈ idx.search query k) :=
  ⟨flat_search_length, flat_search_sorted, flat_search_provenance,
    fun h => flat_search_complete h⟩

/-- C8: the `entry_point` of the graph index is `None` exactly when the node
table is empty and otherwise names a key of the table, and this invariant
is preserved by `add_vector`, `remove_vector` and `clear`. -/
theorem entry_point_invariant (idx : HnswIndex) (id : String) (v : List ℚ)
    (h : EpInv idx) :
    (idx.entry_point = none ↔ idx.nodes = []) ∧
    EpInv (idx.add_vector id v) ∧ EpInv (idx.remove_vector id).1 ∧ EpInv idx.clear :=
  ⟨EpInv_iff h, EpInv_add h id v, EpInv_remove h id, EpInv_clear idx⟩

/-- C9: each of the four similarity functions fails with
`DimensionMismatch` on vectors of differing length, and succeeds on every
pair of equal length. -/
theorem similarity_dimension_spec (a b : List ℚ) :
    (a.length ≠ b.length →
      cosine_similarity a b = .error .DimensionMismatch ∧
      euclidean_distance a b = .error .DimensionMismatch ∧
      dot_product a b = .error .DimensionMismatch ∧
      manhattan_distance a b = .error .DimensionMismatch) ∧
    (a.length = b.length →
      (∃ x, cosine_similarity a b = .ok x) ∧
      (∃ x, euclidean_distance a b = .ok x) ∧
      (∃ x, dot_product a b = .ok x) ∧
      (∃ x, manhattan_distance a b = .ok x)) := by
  constructor
  · intro h
    refine ⟨?_, ?_, ?_, ?_⟩ <;>
      simp [cosine_similarity, euclidean_distance, dot_product, manhattan_distance, h]
  · intro h
    have h2 : ¬ a.length ≠ b.length := by simp [h]
    refine ⟨?_, ?_, ?_, ?_⟩
    · simp only [cosine_similarity, if_neg h2]
      split
      · exact ⟨0, rfl⟩
      · exact ⟨_, rfl⟩
    · simp only [euclidean_distance, if_neg h2]
      exact ⟨_, rfl⟩
    · simp only [dot_product, if_neg h2]
      exact ⟨_, rfl⟩
    · simp only [manhattan_distance, if_neg h2]
      exact ⟨_, rfl⟩

/-- C10: re-adding an existing id on the flat index succeeds, replaces the
stored embedding, leaves `size()` unchanged, and every subsequent search
scores that id against the new embedding only. -/
theorem flat_add_existing_replaces (idx : FlatIndex) (id : String) (v : List ℚ)
    (hnd : (idx.vectors.map Prod.fst).Nodup)
    (hmem : (alookup id idx.vectors).isSome = true) :
    (idx.add_vector id v).size = idx.size ∧
    alookup id (idx.add_vector id v).vectors = some v ∧
    ∀ (q : List ℚ) (k : Nat), ∀ r ∈ (idx.add_vector id v).search q k,
      r.id = id → r.score = FlatIndex.cosine_similarity q v := by
  refine ⟨?_, ?_, ?_⟩
  · simp [FlatIndex.size, FlatIndex.add_vector, length_assocInsert_of_isSome v hmem]
  · simp [FlatIndex.add_vector, alookup_assocInsert_self]
  · intro q k r hr hid
    rcases flat_search_provenance r hr with ⟨p, hp, rfl⟩
    have hid' : p.1 = id := hid
    have hnd' : ((assocInsert id v idx.vectors).map Prod.fst).Nodup :=
      nodup_keys_assocInsert hnd
    have hlook : alookup p.1 (assocInsert id v idx.vectors) = some p.2 :=
      alookup_of_mem_nodup hnd' hp
    rw [hid', alookup_assocInsert_self] at hlook
    have hpv : p.2 = v := by
      injection hlook with h2
      exact h2.symm
    simp [hpv]

/-- C1 (failing-input evaluation): `insert_vectors` never assigns the
`dimensions` field of the orchestrator, so the dimension validation can
never fire.  Concretely: inserting a 1-dimensional record into a fresh database
and then a 2-dimensional one succeeds, the second record is persisted to
the store and added to the index, and `dimensions` is still unset. -/
theorem insert_vectors_dimension_check_dead :
    (∀ (db : VectorDatabase) (vs : List Vector),
      ((db.insert_vectors vs).1).dimensions = db.dimensions) ∧
    (VectorDatabase.new.insert_vectors [sampleVecA]).2 = .ok ["a"] ∧
    ((VectorDatabase.new.insert_vectors [sampleVecA]).1.insert_vectors [sampleVecB]).2
      = .ok ["b"] ∧
    alookup "b"
      (((VectorDatabase.new.insert_vectors [sampleVecA]).1.insert_vectors
        [sampleVecB]).1).storage.vectors = some sampleVecB ∧
    (alookup "b"
      (((VectorDatabase.new.insert_vectors [sampleVecA]).1.insert_vectors
        [sampleVecB]).1).index.nodes).isSome = true ∧
    (((VectorDatabase.new.insert_vectors [sampleVecA]).1.insert_vectors
      [sampleVecB]).1).dimensions = none := by
  have hab : ("a" : String) ≠ "b" := by decide
  have hba : ("b" : String) ≠ "a" := by decide
  refine ⟨fun db vs => insertLoop_dimensions vs db [], ?_, ?_, ?_, ?_, ?_⟩ <;>
    norm_num [VectorDatabase.insert_vectors, insertLoop, dimCheckFails,
      VectorDatabase.new, HnswIndex.new, RedbStorage.store_vector,
      HnswIndex.add_vector, HnswIndex.search_layer, initTraversal,
      searchLayerLoop, processNeighbor, heapPop, heapPush, heapIntoSortedVec,
      alookup, assocInsert, hnswCosineSimilarity, dotQ, normSq, sqrtQ,
      sampleVecA, sampleVecB, List.mergeSort, hab, hba]

/-- C2 (failing-input evaluation): in `search_layer`, a neighbor whose
cosine score is strictly higher (closer) than the worst frontier member
is not admitted while the frontier is full.  On the two-node graph whose
entry point `"a"` scores 0 against the query and whose neighbor `"b"`
scores 1, a traversal with frontier width 1 returns exactly the entry
point: the strictly closer neighbor was rejected and the worst member was
not evicted. -/
theorem search_layer_rejects_closer_neighbor :
    sampleHnsw.search_layer [1, 0] ["a"] 1 = [⟨"a", 0⟩] ∧
    hnswCosineSimilarity [1, 0] [0, 1] = 0 ∧
    hnswCosineSimilarity [1, 0] [1, 0] = 1 := by
  have hab : ("a" : String) ≠ "b" := by decide
  have hba : ("b" : String) ≠ "a" := by decide
  refine ⟨?_, ?_, ?_⟩ <;>
    norm_num [HnswIndex.search_layer, sampleHnsw, initTraversal, searchLayerLoop,
      processNeighbor, heapPop, heapPush, heapIntoSortedVec, alookup,
      hnswCosineSimilarity, dotQ, normSq, sqrtQ, List.mergeSort, hab, hba]

/-! ## Witnesses: the claim theorems applied at concrete inputs. -/

theorem delete_vector_spec_witness :
    (sampleDb.delete_vector "a").2 = true ∧
    ((sampleDb.delete_vector "a").1.delete_vector "a").2 = false :=
  ⟨((delete_vector_spec sampleDb "a").2 (by decide)).1,
   ((delete_vector_spec sampleDb "a").2 (by decide)).2.1⟩

theorem remove_then_search_never_returns_witness :
    (⟨"a", 0⟩ : SearchResult) ∉ ((sampleHnsw.remove_vector "a").1).search [1, 0] 5 :=
  fun hmem =>
    remove_then_search_never_returns sampleHnsw "a" (by decide) [1, 0] 5 ⟨"a", 0⟩ hmem rfl

theorem flat_search_spec_witness :
    (sampleFlat.search [1, 0] 2).length ≤ 2 ∧
    SearchResult.mk "a" (FlatIndex.cosine_similarity [1, 0] [1, 0]) ∈
      sampleFlat.search [1, 0] 2 :=
  ⟨(flat_search_spec sampleFlat [1, 0] 2).1,
   (flat_search_spec sampleFlat [1, 0] 2).2.2.2 (by decide) ("a", [1, 0]) (by decide)⟩

theorem entry_point_invariant_witness :
    EpInv ((HnswIndex.new 768).add_vector "a" [1, 0]) ∧
    ((HnswIndex.new 768).entry_point = none ↔ (HnswIndex.new 768).nodes = []) :=
  ⟨(entry_point_invariant (HnswIndex.new 768) "a" [1, 0] rfl).2.1,
   (entry_point_invariant (HnswIndex.new 768) "a" [1, 0] rfl).1⟩

theorem similarity_dimension_spec_witness :
    cosine_similarity [1] [1, 2] = .error .DimensionMismatch ∧
    (∃ x, dot_product [1, 0] [1, 0] = Except.ok x) :=
  ⟨((similarity_dimension_spec [1] [1, 2]).1 (by decide)).1,
   ((similarity_dimension_spec [1, 0] [1, 0]).2 rfl).2.2.1⟩

theorem flat_add_existing_replaces_witness :
    ((sampleFlat.add_vector "a" [0, 1]).size = sampleFlat.size) ∧
    alookup "a" (sampleFlat.add_vector "a" [0, 1]).vectors = some [0, 1] :=
  ⟨(flat_add_existing_replaces sampleFlat "a" [0, 1] (by decide) (by decide)).1,
   (flat_add_existing_replaces sampleFlat "a" [0, 1] (by decide) (by decide)).2.1⟩

end Skypier
